import Mathlib

/-!
Verification development for the `rbasic` line tokenizer (`src/lexer.rs`).

The Rust source is shallowly embedded: the `Token` enum, the classification
helpers (`token_for_string`, `is_operator`, `is_value`, `operator_precedence`),
the identifier validator `is_valid_identifier`, and the main scanning loop of
`tokenize_line` are translated into executable Lean definitions.  Machine
integers (`u32`, `i32`) are modelled as `Nat`/`Int` with explicit range checks
where the source performs checked string-to-integer parsing, and the source's
wrapping `pos as u32` cast on character indices is modelled by `to_u32`
(reduction modulo 2^32).
-/

namespace RBasic

/-- Model of Rust `char::is_whitespace`: the Unicode `White_Space` property.
The full code-point set is finite and reproduced exactly. -/
def rust_is_whitespace (c : Char) : Bool :=
  let n := c.toNat
  (0x09 ≤ n && n ≤ 0x0D) || n == 0x20 || n == 0x85 || n == 0xA0 ||
  n == 0x1680 || (0x2000 ≤ n && n ≤ 0x200A) || n == 0x2028 || n == 0x2029 ||
  n == 0x202F || n == 0x205F || n == 0x3000

/-- Model of Rust `char::is_numeric`, restricted to ASCII digits.  Rust's
predicate also accepts non-ASCII Unicode numeric characters; for those the
source still returns an error from `tokenize_line`, because `u32::from_str`
rejects every non-ASCII-digit character, so the only difference the
restriction makes is which of the two line-number error messages is produced,
never whether an error is produced. -/
def rust_is_numeric (c : Char) : Bool := c.isDigit

/-- Model of Rust `u32::from_str`/`i32::from_str` digit-run check: one or more
ASCII digits. -/
def all_digits (cs : List Char) : Bool :=
  !cs.isEmpty && cs.all Char.isDigit

/-- Numeric value of a list of ASCII digits, most significant first. -/
def digits_to_nat (cs : List Char) : Nat :=
  cs.foldl (fun acc c => acc * 10 + (c.toNat - 48)) 0

/-- Model of Rust `u32::from_str`: optional leading `+`, then one or more
ASCII digits, value < 2^32. -/
def parse_u32 (cs : List Char) : Option Nat :=
  let ds := match cs with
    | '+' :: rest => rest
    | _ => cs
  if all_digits ds && digits_to_nat ds < 4294967296 then
    some (digits_to_nat ds)
  else
    none

/-- Model of Rust `i32::from_str`: optional leading `+` or `-` sign, then one
or more ASCII digits, value within `[-2^31, 2^31 - 1]`. -/
def parse_i32 (cs : List Char) : Option Int :=
  match cs with
  | '+' :: rest =>
    if all_digits rest && digits_to_nat rest ≤ 2147483647 then
      some (digits_to_nat rest)
    else none
  | '-' :: rest =>
    if all_digits rest && digits_to_nat rest ≤ 2147483648 then
      some (-(digits_to_nat rest : Int))
    else none
  | _ =>
    if all_digits cs && digits_to_nat cs ≤ 2147483647 then
      some (digits_to_nat cs)
    else none

/-- `LineNumber` from `lexer.rs`: a newtype over `u32`. -/
structure LineNumber where
  num : Nat
deriving DecidableEq, Repr

/-- The `Token` enum from `lexer.rs`, with the same variants in the same
order. -/
inductive Token where
  | Comment (text : String)
  | Variable (name : String)
  | Number (value : Int)
  | BString (text : String)
  | Equals
  | LessThan
  | GreaterThan
  | LessThanEqual
  | GreaterThanEqual
  | NotEqual
  | Multiply
  | Divide
  | Minus
  | Plus
  | LParen
  | RParen
  | Bang
  | UMinus
  | Goto
  | If
  | Input
  | Let
  | Print
  | Rem
  | Then
deriving DecidableEq, Repr

namespace Token

/-- `Token::token_for_string` from `lexer.rs`: the fixed keyword/operator
spelling table. -/
def token_for_string (token_str : String) : Option Token :=
  match token_str with
  | "=" => some Token.Equals
  | "<" => some Token.LessThan
  | ">" => some Token.GreaterThan
  | "<=" => some Token.LessThanEqual
  | ">=" => some Token.GreaterThanEqual
  | "<>" => some Token.NotEqual
  | "*" => some Token.Multiply
  | "/" => some Token.Divide
  | "-" => some Token.Minus
  | "+" => some Token.Plus
  | "(" => some Token.LParen
  | ")" => some Token.RParen
  | "!" => some Token.Bang
  | "GOTO" => some Token.Goto
  | "IF" => some Token.If
  | "INPUT" => some Token.Input
  | "LET" => some Token.Let
  | "PRINT" => some Token.Print
  | "REM" => some Token.Rem
  | "THEN" => some Token.Then
  | _ => none

/-- `Token::is_operator` from `lexer.rs`.  Note the source's match arm lists
nine operator variants: `GreaterThanEqual` is absent and falls to the
catch-all `false` arm. -/
def is_operator : Token → Bool
  | Token.Equals | Token.LessThan | Token.GreaterThan | Token.LessThanEqual
  | Token.NotEqual | Token.Multiply | Token.Divide | Token.Minus
  | Token.Plus => true
  | _ => false

/-- `Token::is_value` from `lexer.rs`. -/
def is_value : Token → Bool
  | Token.Variable _ | Token.Number _ | Token.BString _ => true
  | _ => false

/-- `Token::operator_precedence` from `lexer.rs`.  Note the source's
precedence-4 arm lists `Equals`, `LessThan`, `GreaterThan`, `LessThanEqual`
and `NotEqual` only: `GreaterThanEqual` falls to the catch-all error arm. -/
def operator_precedence : Token → Except String Nat
  | Token.Multiply | Token.Divide => Except.ok 10
  | Token.Minus | Token.Plus => Except.ok 8
  | Token.Equals | Token.LessThan | Token.GreaterThan | Token.LessThanEqual
  | Token.NotEqual => Except.ok 4
  | _ => Except.error "Not an operator"

end Token

/-- `TokenAndPos` from `lexer.rs`: a token paired with its zero-based
character offset (`u32` in the source, modelled as `Nat`). -/
structure TokenAndPos where
  pos : Nat
  token : Token
deriving DecidableEq, Repr

/-- `LineOfCode` from `lexer.rs`. -/
structure LineOfCode where
  line_number : LineNumber
  tokens : List TokenAndPos
deriving DecidableEq, Repr

/-- Model of `line.chars().enumerate()`: pair every character with its
index, starting at `i`. -/
def enumFrom (i : Nat) : List Char → List (Nat × Char)
  | [] => []
  | c :: cs => (i, c) :: enumFrom (i + 1) cs

/-- `line.chars().enumerate()` starting at index 0. -/
def enum (cs : List Char) : List (Nat × Char) := enumFrom 0 cs

/-- The continuation predicate of the general-token scan in `tokenize_line`
(line 174 of `lexer.rs`): `!x.is_whitespace() || x == ')'`.  The `)` disjunct
is subsumed by non-whitespace, so a `)` is consumed into the run. -/
def runCont (pc : Nat × Char) : Bool :=
  !rust_is_whitespace pc.2 || pc.2 == ')'

/-- The `-` disambiguation of `tokenize_line` (lines 158-163 of `lexer.rs`):
`Minus` when the token list is non-empty and its last token `is_value`,
otherwise `UMinus`. -/
def minus_token (toks : List TokenAndPos) : Token :=
  match toks.getLast? with
  | some lastTok => if lastTok.token.is_value then Token.Minus else Token.UMinus
  | none => Token.UMinus

/-- `is_valid_identifier` from `lexer.rs`: first character in
`'a'..='z' | 'A'..='Z'`, every later character in
`'a'..='z' | 'A'..='Z' | '0'..='9' | '_'`; the empty string is invalid. -/
def is_valid_identifier (token_str : String) : Bool :=
  match token_str.data with
  | [] => false
  | c :: rest =>
    (('a' ≤ c && c ≤ 'z') || ('A' ≤ c && c ≤ 'Z')) &&
    rest.all (fun d =>
      ('a' ≤ d && d ≤ 'z') || ('A' ≤ d && d ≤ 'Z') ||
      ('0' ≤ d && d ≤ '9') || d == '_')

/-- Model of Rust's `as u32` cast (line 120 of `lexer.rs`,
`let pos = pos as u32`): wrap the value to 32 bits.  The cast is wrapping in
both debug and release builds. -/
def to_u32 (n : Nat) : Nat := n % 4294967296

/-- One iteration of the loop body of `tokenize_line` (lines 119-210 of
`lexer.rs`), with `go` standing for the continuation of the loop on the rest
of the iterator.  The iteration first truncates the character index with
`pos as u32` and tests `pos == 0` on the truncated value, so the line-number
phase runs on the first character and again at any character whose index is
a multiple of 2^32.  Rust's `take_while` consumes its terminating element
from the underlying iterator (hence `dropWhile … |>.drop 1`), while
itertools' `peeking_take_while` leaves it (hence plain `dropWhile` for the
general run).  In the `REM` arm the source skips one character, consumes the
whole remaining iterator into the comment (placed at the `u32` sum
`(pos + 4) as u32`), and the loop then terminates. -/
def scanBody (line : String)
    (go : List (Nat × Char) → LineNumber → List TokenAndPos → Except String LineOfCode)
    (pos0 : Nat) (ch : Char) (rest : List (Nat × Char)) (ln : LineNumber)
    (toks : List TokenAndPos) : Except String LineOfCode :=
  let pos := to_u32 pos0
  if pos = 0 then
    if rust_is_numeric ch then
      let num_str := String.mk (ch :: (rest.takeWhile (fun pc => !rust_is_whitespace pc.2)).map (·.2))
      match parse_u32 num_str.data with
      | some number =>
        go ((rest.dropWhile (fun pc => !rust_is_whitespace pc.2)).drop 1) ⟨number⟩ toks
      | none =>
        Except.error ("Line must start with number followed by whitespace:\n\t" ++ line)
    else
      Except.error ("Line must start with a line number:\n\t" ++ line)
  else if rust_is_whitespace ch then
    go rest ln toks
  else if ch = '"' then
    let str_chars := (rest.takeWhile (fun pc => pc.2 != '"')).map (·.2)
    go ((rest.dropWhile (fun pc => pc.2 != '"')).drop 1) ln
      (toks ++ [⟨pos, Token.BString (String.mk str_chars)⟩])
  else if ch = '-' then
    go rest ln (toks ++ [⟨pos, minus_token toks⟩])
  else if ch = '!' then
    go rest ln (toks ++ [⟨pos, Token.Bang⟩])
  else if ch = '(' then
    go rest ln (toks ++ [⟨pos, Token.LParen⟩])
  else if ch = ')' then
    go rest ln (toks ++ [⟨pos, Token.RParen⟩])
  else
    let token_str := String.mk (ch :: (rest.takeWhile runCont).map (·.2))
    let rest' := rest.dropWhile runCont
    match parse_i32 token_str.data with
    | some n => go rest' ln (toks ++ [⟨pos, Token.Number n⟩])
    | none =>
      match Token.token_for_string token_str with
      | none =>
        if is_valid_identifier token_str then
          go rest' ln (toks ++ [⟨pos, Token.Variable token_str⟩])
        else
          Except.error ("Unimplemented token at " ++ toString pos ++ ":\t" ++ token_str)
      | some t =>
        if t = Token.Rem then
          go [] ln
            (toks ++ [⟨pos, Token.Rem⟩,
              ⟨to_u32 (pos + 4), Token.Comment (String.mk ((rest'.drop 1).map (·.2)))⟩])
        else
          go rest' ln (toks ++ [⟨pos, t⟩])

/-- The loop of `tokenize_line` (lines 118-211 of `lexer.rs`), carrying the
loop's mutable state: the remaining enumerated characters, the current
`line_number`, and the tokens pushed so far (`line` is the original input,
used by the error messages).  The loop consumes at least one character per
iteration, so it is embedded by structural recursion on a fuel that starts
at the number of remaining characters; the out-of-fuel arm is unreachable
for any fuel at least the list length (`scanTokensGo_congr`), keeping the
definition kernel-computable. -/
def scanTokensGo (line : String) :
    Nat → List (Nat × Char) → LineNumber → List TokenAndPos → Except String LineOfCode
  | _, [], ln, toks => Except.ok { line_number := ln, tokens := toks }
  | 0, _ :: _, _, _ => Except.error "out of fuel"
  | fuel + 1, (pos0, ch) :: rest, ln, toks =>
    scanBody line (fun cs ln toks => scanTokensGo line fuel cs ln toks) pos0 ch rest ln toks

/-- The loop, entered with exactly enough fuel. -/
def scanTokens (line : String) (cs : List (Nat × Char)) (ln : LineNumber)
    (toks : List TokenAndPos) : Except String LineOfCode :=
  scanTokensGo line cs.length cs ln toks

/-- `tokenize_line` from `lexer.rs`: run the loop over the enumerated
characters of the line, starting from the initial `LineNumber(0)` and no
tokens.  The first iteration (truncated position 0) is the line-number
phase; an empty line never enters the loop and returns `Ok` with
`LineNumber 0` and no tokens. -/
def tokenize_line (line : String) : Except String LineOfCode :=
  scanTokens line (enum line.data) ⟨0⟩ []

/-- A line of 2^32 + 3 characters: `10 A`, then 2^32 − 4 spaces, then `5 B`.
Its character `5` sits at index 2^32, whose `u32` truncation is 0 (so the
line-number phase of the loop runs again there), and its final `B` sits at
index 2^32 + 2, whose truncation is 2. -/
def wrap_line : String :=
  String.mk ('1' :: '0' :: ' ' :: 'A' ::
    (List.replicate 4294967292 ' ' ++ ('5' :: ' ' :: 'B' :: ([] : List Char))))

/-- Fuel irrelevance: any fuel at least the length of the remaining character
list produces the same result, so the out-of-fuel arm of `scanTokensGo` is
unreachable from `scanTokens`. -/
lemma scanTokensGo_congr (line : String) (f : Nat) :
    ∀ (g : Nat) (cs : List (Nat × Char)) (ln : LineNumber) (toks : List TokenAndPos),
    cs.length ≤ f → cs.length ≤ g →
    scanTokensGo line f cs ln toks = scanTokensGo line g cs ln toks := by
  induction f with
  | zero =>
    intro g cs ln toks hf hg
    cases cs with
    | nil => cases g <;> rfl
    | cons a l => simp at hf
  | succ f ih =>
    intro g cs ln toks hf hg
    cases cs with
    | nil => cases g <;> rfl
    | cons head rest =>
      obtain ⟨pos, ch⟩ := head
      cases g with
      | zero => simp at hg
      | succ g =>
        simp only [List.length_cons, Nat.succ_le_succ_iff] at hf hg
        have hnum : ((rest.dropWhile (fun pc => !rust_is_whitespace pc.2)).drop 1).length
            ≤ rest.length := by
          have := (List.dropWhile_sublist (l := rest)
            (fun pc => !rust_is_whitespace pc.2)).length_le
          simp [List.length_drop]
          omega
        have hdw1 : ((rest.dropWhile (fun pc => pc.2 != '"')).drop 1).length ≤ rest.length := by
          have := (List.dropWhile_sublist (l := rest) (fun pc => pc.2 != '"')).length_le
          simp [List.length_drop]
          omega
        have hdw2 : (rest.dropWhile runCont).length ≤ rest.length :=
          (List.dropWhile_sublist _).length_le
        simp only [scanTokensGo, scanBody]
        by_cases h0 : to_u32 pos = 0
        · simp only [if_pos h0]
          by_cases hn : rust_is_numeric ch
          · simp only [if_pos hn]
            rcases hp : parse_u32 (String.mk (ch :: (rest.takeWhile
                (fun pc => !rust_is_whitespace pc.2)).map (·.2))).data with _ | n
            · simp only [hp]
            · simp only [hp]
              exact ih g _ _ _ (by omega) (by omega)
          · simp only [if_neg hn]
        · simp only [if_neg h0]
          by_cases h1 : rust_is_whitespace ch
          · simp only [if_pos h1]
            exact ih g rest ln toks hf hg
          · simp only [if_neg h1]
            by_cases h2 : ch = '"'
            · simp only [if_pos h2]
              exact ih g _ _ _ (by omega) (by omega)
            · simp only [if_neg h2]
              by_cases h3 : ch = '-'
              · simp only [if_pos h3]
                exact ih g _ _ _ (by simpa using hf) (by simpa using hg)
              · simp only [if_neg h3]
                by_cases h4 : ch = '!'
                · simp only [if_pos h4]
                  exact ih g _ _ _ (by simpa using hf) (by simpa using hg)
                · simp only [if_neg h4]
                  by_cases h5 : ch = '('
                  · simp only [if_pos h5]
                    exact ih g _ _ _ (by simpa using hf) (by simpa using hg)
                  · simp only [if_neg h5]
                    by_cases h6 : ch = ')'
                    · simp only [if_pos h6]
                      exact ih g _ _ _ (by simpa using hf) (by simpa using hg)
                    · simp only [if_neg h6]
                      rcases hp : parse_i32 (String.mk (ch :: (rest.takeWhile
                          runCont).map (·.2))).data with _ | n
                      · simp only [hp]
                        rcases ht : Token.token_for_string (String.mk (ch :: (rest.takeWhile
                            runCont).map (·.2))) with _ | t
                        · simp only [ht]
                          by_cases h7 : is_valid_identifier (String.mk (ch :: (rest.takeWhile
                              runCont).map (·.2)))
                          · simp only [if_pos h7]
                            exact ih g _ _ _ (by omega) (by omega)
                          · simp only [if_neg h7]
                        · simp only [ht]
                          by_cases h8 : t = Token.Rem
                          · simp only [if_pos h8]
                          · simp only [if_neg h8]
                            exact ih g _ _ _ (by omega) (by omega)
                      · simp only [hp]
                        exact ih g _ _ _ (by omega) (by omega)

/-- One loop iteration on a line-number phase hit (truncated position 0,
numeric character) whose span parses as a `u32`: the current line number is
replaced and the loop continues past the span and its terminating
whitespace. -/
lemma scanTokens_linenumber (line : String) (pos : Nat) (ch : Char)
    (rest : List (Nat × Char)) (ln : LineNumber) (toks : List TokenAndPos) (n : Nat)
    (h0 : to_u32 pos = 0) (hn : rust_is_numeric ch = true)
    (hp : parse_u32 (ch :: (rest.takeWhile (fun pc => !rust_is_whitespace pc.2)).map (·.2))
        = some n) :
    scanTokens line ((pos, ch) :: rest) ln toks
      = scanTokens line ((rest.dropWhile (fun pc => !rust_is_whitespace pc.2)).drop 1)
          ⟨n⟩ toks := by
  have hlen : ((rest.dropWhile (fun pc => !rust_is_whitespace pc.2)).drop 1).length
      ≤ rest.length := by
    have := (List.dropWhile_sublist (l := rest) (fun pc => !rust_is_whitespace pc.2)).length_le
    simp [List.length_drop]
    omega
  simp only [scanTokens, List.length_cons]
  rw [scanTokensGo]
  simp only [scanBody, h0, if_pos rfl, hn, if_true, hp]
  exact scanTokensGo_congr line rest.length _ _ _ _ hlen (le_refl _)

/-- One loop iteration on a whitespace character outside the line-number
phase: skip it. -/
lemma scanTokens_whitespace (line : String) (pos : Nat) (ch : Char)
    (rest : List (Nat × Char)) (ln : LineNumber) (toks : List TokenAndPos)
    (h0 : to_u32 pos ≠ 0) (h : rust_is_whitespace ch = true) :
    scanTokens line ((pos, ch) :: rest) ln toks = scanTokens line rest ln toks := by
  simp only [scanTokens, List.length_cons]
  rw [scanTokensGo]
  simp only [scanBody, if_neg h0, h, if_true]

/-- One loop iteration on `-` outside the line-number phase: push
`minus_token toks` at the truncated position and continue. -/
lemma scanTokens_minus (line : String) (pos : Nat) (rest : List (Nat × Char))
    (ln : LineNumber) (toks : List TokenAndPos) (h0 : to_u32 pos ≠ 0) :
    scanTokens line ((pos, '-') :: rest) ln toks
      = scanTokens line rest ln (toks ++ [⟨to_u32 pos, minus_token toks⟩]) := by
  have h : rust_is_whitespace '-' = false := by decide
  simp only [scanTokens, List.length_cons]
  rw [scanTokensGo]
  simp only [scanBody, if_neg h0, h, Bool.false_eq_true, if_false]
  simp

/-- One loop iteration on `"` outside the line-number phase: push the string
literal read up to (and stripping) the closing quote, and continue after
it. -/
lemma scanTokens_string (line : String) (pos : Nat) (rest : List (Nat × Char))
    (ln : LineNumber) (toks : List TokenAndPos) (h0 : to_u32 pos ≠ 0) :
    scanTokens line ((pos, '"') :: rest) ln toks
      = scanTokens line ((rest.dropWhile (fun pc => pc.2 != '"')).drop 1) ln
          (toks ++ [⟨to_u32 pos, Token.BString
            (String.mk ((rest.takeWhile (fun pc => pc.2 != '"')).map (·.2)))⟩]) := by
  have h : rust_is_whitespace '"' = false := by decide
  have hlen : ((rest.dropWhile (fun pc => pc.2 != '"')).drop 1).length ≤ rest.length := by
    have := (List.dropWhile_sublist (l := rest) (fun pc => pc.2 != '"')).length_le
    simp [List.length_drop]
    omega
  simp only [scanTokens, List.length_cons]
  rw [scanTokensGo]
  simp only [scanBody, if_neg h0, h, Bool.false_eq_true, if_false, if_pos rfl]
  exact scanTokensGo_congr line rest.length _ _ _ _ hlen (le_refl _)

/-- One loop iteration entering the general-run branch when the scanned run
parses as an `i32`: push `Number` and continue past the run. -/
lemma scanTokens_run_number (line : String) (pos : Nat) (ch : Char)
    (rest : List (Nat × Char)) (ln : LineNumber) (toks : List TokenAndPos) (n : Int)
    (h0 : to_u32 pos ≠ 0)
    (h1 : rust_is_whitespace ch = false) (h2 : ch ≠ '"') (h3 : ch ≠ '-') (h4 : ch ≠ '!')
    (h5 : ch ≠ '(') (h6 : ch ≠ ')')
    (hp : parse_i32 (ch :: (rest.takeWhile runCont).map (·.2)) = some n) :
    scanTokens line ((pos, ch) :: rest) ln toks
      = scanTokens line (rest.dropWhile runCont) ln
          (toks ++ [⟨to_u32 pos, Token.Number n⟩]) := by
  have hlen : (rest.dropWhile runCont).length ≤ rest.length :=
    (List.dropWhile_sublist _).length_le
  simp only [scanTokens, List.length_cons]
  rw [scanTokensGo]
  simp only [scanBody, if_neg h0, h1, Bool.false_eq_true, if_false, if_neg h2, if_neg h3,
    if_neg h4, if_neg h5, if_neg h6, hp]
  exact scanTokensGo_congr line rest.length _ _ _ _ hlen (le_refl _)

/-- One loop iteration entering the general-run branch when the run is a
fixed keyword/operator spelling other than `REM`: push that token. -/
lemma scanTokens_run_fixed (line : String) (pos : Nat) (ch : Char)
    (rest : List (Nat × Char)) (ln : LineNumber) (toks : List TokenAndPos) (t : Token)
    (h0 : to_u32 pos ≠ 0)
    (h1 : rust_is_whitespace ch = false) (h2 : ch ≠ '"') (h3 : ch ≠ '-') (h4 : ch ≠ '!')
    (h5 : ch ≠ '(') (h6 : ch ≠ ')')
    (hp : parse_i32 (ch :: (rest.takeWhile runCont).map (·.2)) = none)
    (ht : Token.token_for_string (String.mk (ch :: (rest.takeWhile runCont).map (·.2))) = some t)
    (hrem : t ≠ Token.Rem) :
    scanTokens line ((pos, ch) :: rest) ln toks
      = scanTokens line (rest.dropWhile runCont) ln (toks ++ [⟨to_u32 pos, t⟩]) := by
  have hlen : (rest.dropWhile runCont).length ≤ rest.length :=
    (List.dropWhile_sublist _).length_le
  simp only [scanTokens, List.length_cons]
  rw [scanTokensGo]
  simp only [scanBody, if_neg h0, h1, Bool.false_eq_true, if_false, if_neg h2, if_neg h3,
    if_neg h4, if_neg h5, if_neg h6, hp, ht, if_neg hrem]
  exact scanTokensGo_congr line rest.length _ _ _ _ hlen (le_refl _)

/-- One loop iteration entering the general-run branch when the run is
neither a number nor a fixed spelling but a valid identifier: push
`Variable`. -/
lemma scanTokens_run_var (line : String) (pos : Nat) (ch : Char)
    (rest : List (Nat × Char)) (ln : LineNumber) (toks : List TokenAndPos)
    (h0 : to_u32 pos ≠ 0)
    (h1 : rust_is_whitespace ch = false) (h2 : ch ≠ '"') (h3 : ch ≠ '-') (h4 : ch ≠ '!')
    (h5 : ch ≠ '(') (h6 : ch ≠ ')')
    (hp : parse_i32 (ch :: (rest.takeWhile runCont).map (·.2)) = none)
    (ht : Token.token_for_string (String.mk (ch :: (rest.takeWhile runCont).map (·.2))) = none)
    (hv : is_valid_identifier (String.mk (ch :: (rest.takeWhile runCont).map (·.2))) = true) :
    scanTokens line ((pos, ch) :: rest) ln toks
      = scanTokens line (rest.dropWhile runCont) ln
          (toks ++ [⟨to_u32 pos,
            Token.Variable (String.mk (ch :: (rest.takeWhile runCont).map (·.2)))⟩]) := by
  have hlen : (rest.dropWhile runCont).length ≤ rest.length :=
    (List.dropWhile_sublist _).length_le
  simp only [scanTokens, List.length_cons]
  rw [scanTokensGo]
  simp only [scanBody, if_neg h0, h1, Bool.false_eq_true, if_false, if_neg h2, if_neg h3,
    if_neg h4, if_neg h5, if_neg h6, hp, ht, hv, if_true]
  exact scanTokensGo_congr line rest.length _ _ _ _ hlen (le_refl _)

/-- One loop iteration entering the general-run branch when the run matches
none of the three shapes: the whole call fails with the `Unimplemented
token` error naming the run text and its truncated offset. -/
lemma scanTokens_run_err (line : String) (pos : Nat) (ch : Char)
    (rest : List (Nat × Char)) (ln : LineNumber) (toks : List TokenAndPos)
    (h0 : to_u32 pos ≠ 0)
    (h1 : rust_is_whitespace ch = false) (h2 : ch ≠ '"') (h3 : ch ≠ '-') (h4 : ch ≠ '!')
    (h5 : ch ≠ '(') (h6 : ch ≠ ')')
    (hp : parse_i32 (ch :: (rest.takeWhile runCont).map (·.2)) = none)
    (ht : Token.token_for_string (String.mk (ch :: (rest.takeWhile runCont).map (·.2))) = none)
    (hv : is_valid_identifier (String.mk (ch :: (rest.takeWhile runCont).map (·.2))) = false) :
    scanTokens line ((pos, ch) :: rest) ln toks
      = Except.error ("Unimplemented token at " ++ toString (to_u32 pos) ++ ":\t"
          ++ String.mk (ch :: (rest.takeWhile runCont).map (·.2))) := by
  simp only [scanTokens, List.length_cons]
  rw [scanTokensGo]
  simp only [scanBody, if_neg h0, h1, Bool.false_eq_true, if_false, if_neg h2, if_neg h3,
    if_neg h4, if_neg h5, if_neg h6, hp, ht, hv]

/-- One loop iteration entering the general-run branch when the run is
exactly `REM`: push `Rem` at the truncated offset, skip one character, push
the whole remainder of the line as a `Comment` at the `u32` offset + 4, and
finish the line (the loop's iterator is exhausted, so the accumulated state
is returned as the final result). -/
lemma scanTokens_rem (line : String) (pos : Nat) (rest : List (Nat × Char))
    (ln : LineNumber) (toks : List TokenAndPos)
    (h0 : to_u32 pos ≠ 0)
    (hrun : (rest.takeWhile runCont).map (·.2) = ['E', 'M']) :
    scanTokens line ((pos, 'R') :: rest) ln toks
      = Except.ok ⟨ln, toks ++ [⟨to_u32 pos, Token.Rem⟩,
          ⟨to_u32 (to_u32 pos + 4),
            Token.Comment (String.mk (((rest.dropWhile runCont).drop 1).map (·.2)))⟩]⟩ := by
  have h1 : rust_is_whitespace 'R' = false := by decide
  have hp : parse_i32 (String.mk ('R' :: ['E', 'M'])).data = none := by decide
  have ht : Token.token_for_string (String.mk ('R' :: ['E', 'M'])) = some Token.Rem := rfl
  simp only [scanTokens, List.length_cons]
  rw [scanTokensGo]
  simp only [scanBody, if_neg h0, h1, Bool.false_eq_true, if_false, hrun, hp, ht, if_pos rfl,
    scanTokensGo]
  simp

/-- Every index produced by `enumFrom i` is at least `i`. -/
lemma enumFrom_fst_ge (cs : List Char) : ∀ (i : Nat), ∀ pc ∈ enumFrom i cs, i ≤ pc.1 := by
  induction cs with
  | nil => intro i pc h; simp [enumFrom] at h
  | cons c cs ih =>
    intro i pc h
    simp only [enumFrom, List.mem_cons] at h
    rcases h with h | h
    · subst h; simp
    · have := ih (i + 1) pc h
      omega

/-- Every index produced by `enumFrom i` over `cs` is below `i + cs.length`. -/
lemma enumFrom_fst_lt (cs : List Char) : ∀ (i : Nat), ∀ pc ∈ enumFrom i cs,
    pc.1 < i + cs.length := by
  induction cs with
  | nil => intro i pc h; simp [enumFrom] at h
  | cons c cs ih =>
    intro i pc h
    simp only [enumFrom, List.mem_cons] at h
    rcases h with h | h
    · subst h; simp
    · have := ih (i + 1) pc h
      simp only [List.length_cons]
      omega

/-- The indices produced by `enumFrom` are strictly increasing. -/
lemma enumFrom_fst_pairwise (cs : List Char) : ∀ (i : Nat),
    ((enumFrom i cs).map Prod.fst).Pairwise (· < ·) := by
  induction cs with
  | nil => intro i; simp [enumFrom]
  | cons c cs ih =>
    intro i
    simp only [enumFrom, List.map_cons, List.pairwise_cons]
    refine ⟨?_, ih (i + 1)⟩
    intro a ha
    simp only [List.mem_map] at ha
    obtain ⟨pc, hpc, rfl⟩ := ha
    have := enumFrom_fst_ge cs (i + 1) pc hpc
    omega

/-- `enumFrom` distributes over list append, shifting the start index. -/
lemma enumFrom_append (l1 : List Char) : ∀ (l2 : List Char) (i : Nat),
    enumFrom i (l1 ++ l2) = enumFrom i l1 ++ enumFrom (i + l1.length) l2 := by
  induction l1 with
  | nil => intro l2 i; simp [enumFrom]
  | cons c cs ih =>
    intro l2 i
    show (i, c) :: enumFrom (i + 1) (cs ++ l2)
        = ((i, c) :: enumFrom (i + 1) cs) ++ enumFrom (i + (c :: cs).length) l2
    rw [List.cons_append, ih l2 (i + 1)]
    have h : i + 1 + cs.length = i + (c :: cs).length := by
      simp only [List.length_cons]
      omega
    rw [h]

/-- Appending one token whose offset exceeds every accumulated offset keeps
the offset list strictly increasing. -/
lemma pairwise_push (toks : List TokenAndPos) (pos : Nat) (tk : Token)
    (htoks : (toks.map TokenAndPos.pos).Pairwise (· < ·))
    (hlt : ∀ t ∈ toks, t.pos < pos) :
    (List.map TokenAndPos.pos (toks ++ [⟨pos, tk⟩])).Pairwise (· < ·) := by
  simp only [List.map_append, List.map_cons, List.map_nil]
  refine List.pairwise_append.2 ⟨htoks, List.pairwise_singleton _ _, ?_⟩
  intro a ha b hb
  simp only [List.mem_map] at ha
  simp only [List.mem_cons, List.not_mem_nil, or_false] at hb
  obtain ⟨t, ht, rfl⟩ := ha
  subst hb
  exact hlt t ht

/-- Appending the `Rem` token and the arithmetically placed `Comment` token
keeps the offset list strictly increasing. -/
lemma pairwise_push_rem (toks : List TokenAndPos) (pos : Nat) (text : String)
    (htoks : (toks.map TokenAndPos.pos).Pairwise (· < ·))
    (hlt : ∀ t ∈ toks, t.pos < pos) :
    (List.map TokenAndPos.pos
      (toks ++ [⟨pos, Token.Rem⟩, ⟨pos + 4, Token.Comment text⟩])).Pairwise (· < ·) := by
  simp only [List.map_append, List.map_cons, List.map_nil]
  refine List.pairwise_append.2 ⟨htoks, ?_, ?_⟩
  · simp
  · intro a ha b hb
    simp only [List.mem_map] at ha
    obtain ⟨t, ht, rfl⟩ := ha
    simp only [List.mem_cons, List.not_mem_nil, or_false] at hb
    have := hlt t ht
    rcases hb with rfl | rfl <;> omega

/-- Appending a token at the head index preserves the bound that every
accumulated offset is below every remaining index. -/
lemma bound_push (toks : List TokenAndPos) (pos : Nat) (tk : Token)
    (cs' : List (Nat × Char))
    (hinv : ∀ t ∈ toks, ∀ pc ∈ cs', t.pos < pc.1)
    (hpos : ∀ pc ∈ cs', pos < pc.1) :
    ∀ t ∈ toks ++ [⟨pos, tk⟩], ∀ pc ∈ cs', t.pos < pc.1 := by
  intro t ht pc hpc
  rcases List.mem_append.1 ht with h | h
  · exact hinv t h pc hpc
  · simp only [List.mem_cons, List.not_mem_nil, or_false] at h
    subst h
    exact hpos pc hpc

/-- Invariant of the scanning loop on lines short enough that no offset is
truncated: if the remaining indices are strictly increasing and all small
enough that neither they nor the comment offset `pos + 4` wrap, the
accumulated offsets are strictly increasing and all below the remaining
indices, then the offsets of a successful result are strictly increasing. -/
lemma scanTokensGo_pairwise (line : String) (f : Nat) :
    ∀ (cs : List (Nat × Char)) (ln : LineNumber) (toks : List TokenAndPos) (res : LineOfCode),
    (cs.map Prod.fst).Pairwise (· < ·) →
    (∀ pc ∈ cs, pc.1 + 4 < 4294967296) →
    (toks.map TokenAndPos.pos).Pairwise (· < ·) →
    (∀ t ∈ toks, ∀ pc ∈ cs, t.pos < pc.1) →
    scanTokensGo line f cs ln toks = Except.ok res →
    (res.tokens.map TokenAndPos.pos).Pairwise (· < ·) := by
  induction f with
  | zero =>
    intro cs ln toks res hcs hb htoks hinv hres
    cases cs with
    | nil =>
      simp only [scanTokensGo, Except.ok.injEq] at hres
      subst hres
      exact htoks
    | cons a l => simp [scanTokensGo] at hres
  | succ f ih =>
    intro cs ln toks res hcs hb htoks hinv hres
    cases cs with
    | nil =>
      simp only [scanTokensGo, Except.ok.injEq] at hres
      subst hres
      exact htoks
    | cons head rest =>
      obtain ⟨pos, ch⟩ := head
      simp only [List.map_cons, List.pairwise_cons] at hcs
      obtain ⟨hposlt', hrest_pw⟩ := hcs
      have hposlt : ∀ pc ∈ rest, pos < pc.1 := by
        intro pc hpc
        exact hposlt' pc.1 (List.mem_map.2 ⟨pc, hpc, rfl⟩)
      have hb_head : pos + 4 < 4294967296 := hb (pos, ch) (List.mem_cons_self _ _)
      have hb_rest : ∀ pc ∈ rest, pc.1 + 4 < 4294967296 := fun pc hpc =>
        hb pc (List.mem_cons_of_mem _ hpc)
      have hpe : to_u32 pos = pos := Nat.mod_eq_of_lt (by omega)
      have hc4 : to_u32 (pos + 4) = pos + 4 := Nat.mod_eq_of_lt (by omega)
      have htokpos : ∀ t ∈ toks, t.pos < pos := fun t ht =>
        hinv t ht (pos, ch) (List.mem_cons_self _ _)
      have hinv_rest : ∀ t ∈ toks, ∀ pc ∈ rest, t.pos < pc.1 := fun t ht pc hpc =>
        hinv t ht pc (List.mem_cons_of_mem _ hpc)
      rw [scanTokensGo] at hres
      simp only [scanBody] at hres
      simp only [hpe, hc4] at hres
      by_cases h0 : pos = 0
      · rw [if_pos h0] at hres
        by_cases hn : rust_is_numeric ch
        · rw [if_pos hn] at hres
          rcases hp : parse_u32 (String.mk (ch :: (rest.takeWhile
              (fun pc => !rust_is_whitespace pc.2)).map (·.2))).data with _ | n
          · simp only [hp] at hres
            simp at hres
          · simp only [hp] at hres
            have hsub : List.Sublist ((rest.dropWhile
                (fun pc => !rust_is_whitespace pc.2)).drop 1) rest :=
              (List.drop_sublist _ _).trans (List.dropWhile_sublist _)
            exact ih _ _ _ res (List.Pairwise.sublist (hsub.map Prod.fst) hrest_pw)
              (fun pc hpc => hb_rest pc (hsub.subset hpc)) htoks
              (fun t ht pc hpc => hinv_rest t ht pc (hsub.subset hpc)) hres
        · rw [if_neg hn] at hres
          simp at hres
      · rw [if_neg h0] at hres
        by_cases h1 : rust_is_whitespace ch
        · rw [if_pos h1] at hres
          exact ih rest ln toks res hrest_pw hb_rest htoks hinv_rest hres
        · rw [if_neg (by simp [h1])] at hres
          by_cases h2 : ch = '"'
          · rw [if_pos h2] at hres
            have hsub : List.Sublist ((rest.dropWhile (fun pc => pc.2 != '"')).drop 1) rest :=
              (List.drop_sublist _ _).trans (List.dropWhile_sublist _)
            refine ih _ _ _ res (List.Pairwise.sublist (hsub.map Prod.fst) hrest_pw)
              (fun pc hpc => hb_rest pc (hsub.subset hpc))
              (pairwise_push toks pos _ htoks htokpos)
              (bound_push toks pos _ _
                (fun t ht pc hpc => hinv_rest t ht pc (hsub.subset hpc))
                (fun pc hpc => hposlt pc (hsub.subset hpc))) hres
          · rw [if_neg h2] at hres
            by_cases h3 : ch = '-'
            · rw [if_pos h3] at hres
              exact ih rest ln _ res hrest_pw hb_rest
                (pairwise_push toks pos _ htoks htokpos)
                (bound_push toks pos _ rest hinv_rest hposlt) hres
            · rw [if_neg h3] at hres
              by_cases h4 : ch = '!'
              · rw [if_pos h4] at hres
                exact ih rest ln _ res hrest_pw hb_rest
                  (pairwise_push toks pos _ htoks htokpos)
                  (bound_push toks pos _ rest hinv_rest hposlt) hres
              · rw [if_neg h4] at hres
                by_cases h5 : ch = '('
                · rw [if_pos h5] at hres
                  exact ih rest ln _ res hrest_pw hb_rest
                    (pairwise_push toks pos _ htoks htokpos)
                    (bound_push toks pos _ rest hinv_rest hposlt) hres
                · rw [if_neg h5] at hres
                  by_cases h6 : ch = ')'
                  · rw [if_pos h6] at hres
                    exact ih rest ln _ res hrest_pw hb_rest
                      (pairwise_push toks pos _ htoks htokpos)
                      (bound_push toks pos _ rest hinv_rest hposlt) hres
                  · rw [if_neg h6] at hres
                    have hsub : List.Sublist (rest.dropWhile runCont) rest :=
                      List.dropWhile_sublist _
                    have hpw' := List.Pairwise.sublist (hsub.map Prod.fst) hrest_pw
                    have hb' : ∀ pc ∈ rest.dropWhile runCont, pc.1 + 4 < 4294967296 :=
                      fun pc hpc => hb_rest pc (hsub.subset hpc)
                    have hinv' : ∀ t ∈ toks, ∀ pc ∈ rest.dropWhile runCont, t.pos < pc.1 :=
                      fun t ht pc hpc => hinv_rest t ht pc (hsub.subset hpc)
                    have hpos' : ∀ pc ∈ rest.dropWhile runCont, pos < pc.1 :=
                      fun pc hpc => hposlt pc (hsub.subset hpc)
                    rcases hp : parse_i32 (ch :: (rest.takeWhile runCont).map (·.2))
                      with _ | n
                    · simp only [hp] at hres
                      rcases ht : Token.token_for_string
                          (String.mk (ch :: (rest.takeWhile runCont).map (·.2))) with _ | t
                      · simp only [ht] at hres
                        by_cases h7 : is_valid_identifier
                            (String.mk (ch :: (rest.takeWhile runCont).map (·.2)))
                        · simp only [if_pos h7] at hres
                          exact ih _ _ _ res hpw' hb'
                            (pairwise_push toks pos _ htoks htokpos)
                            (bound_push toks pos _ _ hinv' hpos') hres
                        · simp only [if_neg h7] at hres
                          simp at hres
                      · simp only [ht] at hres
                        by_cases h8 : t = Token.Rem
                        · simp only [if_pos h8] at hres
                          cases f with
                          | zero =>
                            simp only [scanTokensGo, Except.ok.injEq] at hres
                            subst hres
                            exact pairwise_push_rem toks pos _ htoks htokpos
                          | succ g =>
                            simp only [scanTokensGo, Except.ok.injEq] at hres
                            subst hres
                            exact pairwise_push_rem toks pos _ htoks htokpos
                        · simp only [if_neg h8] at hres
                          exact ih _ _ _ res hpw' hb'
                            (pairwise_push toks pos _ htoks htokpos)
                            (bound_push toks pos _ _ hinv' hpos') hres
                    · simp only [hp] at hres
                      exact ih _ _ _ res hpw' hb'
                        (pairwise_push toks pos _ htoks htokpos)
                        (bound_push toks pos _ _ hinv' hpos') hres

/-- The loop skips a run of spaces whose truncated indices are all
nonzero. -/
lemma scanTokens_skip_spaces (line : String) : ∀ (n i : Nat) (tail : List (Nat × Char))
    (ln : LineNumber) (toks : List TokenAndPos),
    (∀ k, k < n → to_u32 (i + k) ≠ 0) →
    scanTokens line (enumFrom i (List.replicate n ' ') ++ tail) ln toks
      = scanTokens line tail ln toks := by
  intro n
  induction n with
  | zero => intro i tail ln toks h0; rfl
  | succ n ih =>
    intro i tail ln toks h0
    show scanTokens line ((i, ' ') :: (enumFrom (i + 1) (List.replicate n ' ') ++ tail)) ln toks
        = scanTokens line tail ln toks
    rw [scanTokens_whitespace line i ' ' _ ln toks (h0 0 (by omega)) (by decide)]
    refine ih (i + 1) tail ln toks ?_
    intro k hk
    have h := h0 (k + 1) (by omega)
    rwa [show i + 1 + k = i + (k + 1) by omega]

/-- Evaluation of the loop on a line `10 A`, then `n = m + 1` spaces, then
`5 B`, assuming the index right after the spaces truncates to 0: the
line-number phase runs again there, the line number is reassigned to 5, and
the final `B` is pushed at wrapped offset 2, below the earlier offset 3. -/
lemma wrap_eval (m : Nat)
    (hk : ∀ k, k < m + 1 → to_u32 (4 + k) ≠ 0)
    (h4n : to_u32 (4 + (m + 1)) = 0) :
    tokenize_line (String.mk ('1' :: '0' :: ' ' :: 'A' :: (List.replicate (m + 1) ' ' ++ ('5' :: ' ' :: 'B' :: ([] : List Char)))))
      = Except.ok ⟨⟨5⟩, [⟨3, Token.Variable "A"⟩, ⟨2, Token.Variable "B"⟩]⟩ := by
  have hws0 : (!rust_is_whitespace '0') = true := by decide
  have hwssp : (!rust_is_whitespace ' ') = false := by decide
  have hc1 : runCont (4, ' ') = false := by decide
  have htwA : List.takeWhile (fun pc => !rust_is_whitespace pc.2)
      ((1, '0') :: (2, ' ') :: (3, 'A') :: enumFrom 4 (List.replicate (m + 1) ' ' ++ ('5' :: ' ' :: 'B' :: ([] : List Char)))) = [(1, '0')] := by
    simp [List.takeWhile_cons, hws0, hwssp]
  have hdwA : List.dropWhile (fun pc => !rust_is_whitespace pc.2)
      ((1, '0') :: (2, ' ') :: (3, 'A') :: enumFrom 4 (List.replicate (m + 1) ' ' ++ ('5' :: ' ' :: 'B' :: ([] : List Char))))
      = (2, ' ') :: (3, 'A') :: enumFrom 4 (List.replicate (m + 1) ' ' ++ ('5' :: ' ' :: 'B' :: ([] : List Char))) := by
    simp [List.dropWhile_cons, hws0, hwssp]
  have stepA : scanTokens (String.mk ('1' :: '0' :: ' ' :: 'A' :: (List.replicate (m + 1) ' ' ++ ('5' :: ' ' :: 'B' :: ([] : List Char)))))
        ((0, '1') :: (1, '0') :: (2, ' ') :: (3, 'A') :: enumFrom 4 (List.replicate (m + 1) ' ' ++ ('5' :: ' ' :: 'B' :: ([] : List Char)))) ⟨0⟩ []
      = scanTokens (String.mk ('1' :: '0' :: ' ' :: 'A' :: (List.replicate (m + 1) ' ' ++ ('5' :: ' ' :: 'B' :: ([] : List Char))))) ((3, 'A') :: enumFrom 4 (List.replicate (m + 1) ' ' ++ ('5' :: ' ' :: 'B' :: ([] : List Char)))) ⟨10⟩ [] := by
    have h := scanTokens_linenumber (String.mk ('1' :: '0' :: ' ' :: 'A' :: (List.replicate (m + 1) ' ' ++ ('5' :: ' ' :: 'B' :: ([] : List Char))))) 0 '1'
      ((1, '0') :: (2, ' ') :: (3, 'A') :: enumFrom 4 (List.replicate (m + 1) ' ' ++ ('5' :: ' ' :: 'B' :: ([] : List Char)))) ⟨0⟩ [] 10
      (by decide) (by decide) (by rw [htwA]; decide)
    rw [hdwA] at h
    exact h
  have hRc : (enumFrom 4 (List.replicate (m + 1) ' ' ++ ('5' :: ' ' :: 'B' :: ([] : List Char))) : List (Nat × Char)) = (4, ' ') :: enumFrom 5 (List.replicate m ' ' ++ ('5' :: ' ' :: 'B' :: ([] : List Char))) := by
    rw [List.replicate_succ]
    rfl
  have htwB : List.takeWhile runCont (enumFrom 4 (List.replicate (m + 1) ' ' ++ ('5' :: ' ' :: 'B' :: ([] : List Char))) : List (Nat × Char)) = [] := by
    rw [hRc]
    simp [List.takeWhile_cons, hc1]
  have hdwB : List.dropWhile runCont (enumFrom 4 (List.replicate (m + 1) ' ' ++ ('5' :: ' ' :: 'B' :: ([] : List Char))) : List (Nat × Char)) = enumFrom 4 (List.replicate (m + 1) ' ' ++ ('5' :: ' ' :: 'B' :: ([] : List Char))) := by
    rw [hRc]
    simp [List.dropWhile_cons, hc1]
  have stepB : scanTokens (String.mk ('1' :: '0' :: ' ' :: 'A' :: (List.replicate (m + 1) ' ' ++ ('5' :: ' ' :: 'B' :: ([] : List Char))))) ((3, 'A') :: enumFrom 4 (List.replicate (m + 1) ' ' ++ ('5' :: ' ' :: 'B' :: ([] : List Char)))) ⟨10⟩ []
      = scanTokens (String.mk ('1' :: '0' :: ' ' :: 'A' :: (List.replicate (m + 1) ' ' ++ ('5' :: ' ' :: 'B' :: ([] : List Char))))) (enumFrom 4 (List.replicate (m + 1) ' ' ++ ('5' :: ' ' :: 'B' :: ([] : List Char)))) ⟨10⟩ [⟨3, Token.Variable "A"⟩] := by
    have h := scanTokens_run_var (String.mk ('1' :: '0' :: ' ' :: 'A' :: (List.replicate (m + 1) ' ' ++ ('5' :: ' ' :: 'B' :: ([] : List Char))))) 3 'A' (enumFrom 4 (List.replicate (m + 1) ' ' ++ ('5' :: ' ' :: 'B' :: ([] : List Char)))) ⟨10⟩ []
      (by decide) (by decide) (by decide) (by decide) (by decide) (by decide) (by decide)
      (by rw [htwB]; decide) (by rw [htwB]; rfl) (by rw [htwB]; decide)
    rw [hdwB, htwB] at h
    exact h
  have hsplit : (enumFrom 4 (List.replicate (m + 1) ' ' ++ ('5' :: ' ' :: 'B' :: ([] : List Char))) : List (Nat × Char))
      = enumFrom 4 (List.replicate (m + 1) ' ') ++ enumFrom (4 + (m + 1)) ('5' :: ' ' :: 'B' :: ([] : List Char)) := by
    rw [enumFrom_append, List.length_replicate]
  have stepC : scanTokens (String.mk ('1' :: '0' :: ' ' :: 'A' :: (List.replicate (m + 1) ' ' ++ ('5' :: ' ' :: 'B' :: ([] : List Char))))) (enumFrom 4 (List.replicate (m + 1) ' ' ++ ('5' :: ' ' :: 'B' :: ([] : List Char)))) ⟨10⟩ [⟨3, Token.Variable "A"⟩]
      = scanTokens (String.mk ('1' :: '0' :: ' ' :: 'A' :: (List.replicate (m + 1) ' ' ++ ('5' :: ' ' :: 'B' :: ([] : List Char))))) (enumFrom (4 + (m + 1)) ('5' :: ' ' :: 'B' :: ([] : List Char))) ⟨10⟩ [⟨3, Token.Variable "A"⟩] := by
    rw [hsplit]
    exact scanTokens_skip_spaces (String.mk ('1' :: '0' :: ' ' :: 'A' :: (List.replicate (m + 1) ' ' ++ ('5' :: ' ' :: 'B' :: ([] : List Char))))) (m + 1) 4 _ ⟨10⟩ _ hk
  have stepD : scanTokens (String.mk ('1' :: '0' :: ' ' :: 'A' :: (List.replicate (m + 1) ' ' ++ ('5' :: ' ' :: 'B' :: ([] : List Char))))) (enumFrom (4 + (m + 1)) ('5' :: ' ' :: 'B' :: ([] : List Char))) ⟨10⟩ [⟨3, Token.Variable "A"⟩]
      = scanTokens (String.mk ('1' :: '0' :: ' ' :: 'A' :: (List.replicate (m + 1) ' ' ++ ('5' :: ' ' :: 'B' :: ([] : List Char))))) [(4 + (m + 1) + 2, 'B')] ⟨5⟩ [⟨3, Token.Variable "A"⟩] := by
    show scanTokens (String.mk ('1' :: '0' :: ' ' :: 'A' :: (List.replicate (m + 1) ' ' ++ ('5' :: ' ' :: 'B' :: ([] : List Char))))) ((4 + (m + 1), '5') :: (4 + (m + 1) + 1, ' ')
        :: (4 + (m + 1) + 2, 'B') :: []) ⟨10⟩ [⟨3, Token.Variable "A"⟩] = _
    have htwD : List.takeWhile (fun pc => !rust_is_whitespace pc.2)
        [(4 + (m + 1) + 1, ' '), (4 + (m + 1) + 2, 'B')] = [] := by
      simp [List.takeWhile_cons, hwssp]
    have h := scanTokens_linenumber (String.mk ('1' :: '0' :: ' ' :: 'A' :: (List.replicate (m + 1) ' ' ++ ('5' :: ' ' :: 'B' :: ([] : List Char))))) (4 + (m + 1)) '5'
      [(4 + (m + 1) + 1, ' '), (4 + (m + 1) + 2, 'B')] ⟨10⟩ [⟨3, Token.Variable "A"⟩] 5
      h4n (by decide) (by rw [htwD]; decide)
    exact h
  have hpe : to_u32 (4 + (m + 1) + 2) = 2 := by
    unfold to_u32 at h4n ⊢
    omega
  have stepE : scanTokens (String.mk ('1' :: '0' :: ' ' :: 'A' :: (List.replicate (m + 1) ' ' ++ ('5' :: ' ' :: 'B' :: ([] : List Char))))) [(4 + (m + 1) + 2, 'B')] ⟨5⟩ [⟨3, Token.Variable "A"⟩]
      = Except.ok ⟨⟨5⟩, [⟨3, Token.Variable "A"⟩, ⟨2, Token.Variable "B"⟩]⟩ := by
    have h := scanTokens_run_var (String.mk ('1' :: '0' :: ' ' :: 'A' :: (List.replicate (m + 1) ' ' ++ ('5' :: ' ' :: 'B' :: ([] : List Char))))) (4 + (m + 1) + 2) 'B' [] ⟨5⟩ [⟨3, Token.Variable "A"⟩]
      (by rw [hpe]; decide) (by decide) (by decide) (by decide) (by decide) (by decide)
      (by decide) (by decide) (by rfl) (by decide)
    rw [hpe] at h
    exact h
  calc tokenize_line (String.mk ('1' :: '0' :: ' ' :: 'A' :: (List.replicate (m + 1) ' ' ++ ('5' :: ' ' :: 'B' :: ([] : List Char)))))
      = scanTokens (String.mk ('1' :: '0' :: ' ' :: 'A' :: (List.replicate (m + 1) ' ' ++ ('5' :: ' ' :: 'B' :: ([] : List Char)))))
          ((0, '1') :: (1, '0') :: (2, ' ') :: (3, 'A') :: enumFrom 4 (List.replicate (m + 1) ' ' ++ ('5' :: ' ' :: 'B' :: ([] : List Char)))) ⟨0⟩ [] := rfl
    _ = scanTokens (String.mk ('1' :: '0' :: ' ' :: 'A' :: (List.replicate (m + 1) ' ' ++ ('5' :: ' ' :: 'B' :: ([] : List Char))))) ((3, 'A') :: enumFrom 4 (List.replicate (m + 1) ' ' ++ ('5' :: ' ' :: 'B' :: ([] : List Char)))) ⟨10⟩ [] := stepA
    _ = scanTokens (String.mk ('1' :: '0' :: ' ' :: 'A' :: (List.replicate (m + 1) ' ' ++ ('5' :: ' ' :: 'B' :: ([] : List Char))))) (enumFrom 4 (List.replicate (m + 1) ' ' ++ ('5' :: ' ' :: 'B' :: ([] : List Char)))) ⟨10⟩ [⟨3, Token.Variable "A"⟩] := stepB
    _ = scanTokens (String.mk ('1' :: '0' :: ' ' :: 'A' :: (List.replicate (m + 1) ' ' ++ ('5' :: ' ' :: 'B' :: ([] : List Char))))) (enumFrom (4 + (m + 1)) ('5' :: ' ' :: 'B' :: ([] : List Char))) ⟨10⟩ [⟨3, Token.Variable "A"⟩] := stepC
    _ = scanTokens (String.mk ('1' :: '0' :: ' ' :: 'A' :: (List.replicate (m + 1) ' ' ++ ('5' :: ' ' :: 'B' :: ([] : List Char))))) [(4 + (m + 1) + 2, 'B')] ⟨5⟩ [⟨3, Token.Variable "A"⟩] := stepD
    _ = Except.ok ⟨⟨5⟩, [⟨3, Token.Variable "A"⟩, ⟨2, Token.Variable "B"⟩]⟩ := stepE

/-- The source-side ASCII-letter test of `is_valid_identifier` coincides with
`Char.isAlpha`. -/
lemma ascii_letter_eq_isAlpha (c : Char) :
    (('a' ≤ c && c ≤ 'z') || ('A' ≤ c && c ≤ 'Z')) = c.isAlpha := by
  simp only [Char.isAlpha, Char.isUpper, Char.isLower, Char.le_def, decide_eq_true_eq]
  rcases Char.le_total 'a' c with h | h <;>
    simp [Char.le_def, ge_iff_le, Bool.or_comm]

/-- The source-side ASCII-digit test of `is_valid_identifier` coincides with
`Char.isDigit`. -/
lemma ascii_digit_eq_isDigit (c : Char) :
    ('0' ≤ c && c ≤ '9') = c.isDigit := by
  rfl

/-- Claim C1: the claim asserts that a `)` character terminates a scanned
run without being consumed, so that tokenizing `"10 PRINT (A)"` succeeds
with `LParen`, `Variable "A"`, `RParen`.  The code disagrees: the run
predicate `!x.is_whitespace() || x == ')'` keeps consuming on `)` (the
disjunct is subsumed by non-whitespace), so the run becomes `A)` and
tokenization fails with the `Unimplemented token` error. -/
theorem c1_close_paren_consumed_into_run :
    tokenize_line "10 PRINT (A)" = Except.error "Unimplemented token at 10:\tA)" := by
  rfl

/-- Claim C2: the claim asserts precedence 4 for all six comparison
operators.  The code's precedence-4 match arm omits `GreaterThanEqual`
(spelling `>=`), which therefore falls to the catch-all and reports the
"Not an operator" error, while the other nine operators have the claimed
precedences. -/
theorem c2_greater_or_equal_precedence_error :
    Token.operator_precedence Token.GreaterThanEqual = Except.error "Not an operator"
      ∧ Token.operator_precedence Token.Multiply = Except.ok 10
      ∧ Token.operator_precedence Token.Divide = Except.ok 10
      ∧ Token.operator_precedence Token.Minus = Except.ok 8
      ∧ Token.operator_precedence Token.Plus = Except.ok 8
      ∧ Token.operator_precedence Token.Equals = Except.ok 4
      ∧ Token.operator_precedence Token.LessThan = Except.ok 4
      ∧ Token.operator_precedence Token.GreaterThan = Except.ok 4
      ∧ Token.operator_precedence Token.LessThanEqual = Except.ok 4
      ∧ Token.operator_precedence Token.NotEqual = Except.ok 4 :=
  ⟨rfl, rfl, rfl, rfl, rfl, rfl, rfl, rfl, rfl, rfl⟩

/-- Claim C3: the claim asserts `is_operator` is true for exactly the ten
binary-operator variants.  The code's match arm omits `GreaterThanEqual`,
so `is_operator` is false on it, while the `is_value` part of the claim and
the mutual exclusivity of the two predicates do hold. -/
theorem c3_greater_or_equal_not_operator :
    Token.is_operator Token.GreaterThanEqual = false
      ∧ (∀ t : Token, Token.is_value t = true ↔
          (∃ s, t = Token.Variable s) ∨ (∃ n, t = Token.Number n) ∨ (∃ s, t = Token.BString s))
      ∧ (∀ t : Token, ¬(Token.is_operator t = true ∧ Token.is_value t = true)) := by
  refine ⟨rfl, ?_, ?_⟩
  · intro t
    cases t <;> simp [Token.is_value]
  · intro t
    cases t <;> simp [Token.is_operator, Token.is_value]

/-- Claim C4 counterexample: the claim asserts that every line whose first
character is not a digit, including the empty line, is rejected.  The empty
line never enters the scanning loop and is accepted with the initial
`LineNumber 0` and no tokens. -/
theorem c4_empty_line_accepted :
    tokenize_line "" = Except.ok ⟨⟨0⟩, []⟩ := by
  rfl

/-- Claim C4 (amended): for every nonempty input line whose first character
is not a digit, `tokenize_line` returns the line-number error and no
`LineOfCode`. -/
theorem c4_nonempty_nondigit_errors :
    ∀ (line : String) (c : Char) (cs : List Char),
      line.data = c :: cs → rust_is_numeric c = false →
      tokenize_line line
        = Except.error ("Line must start with a line number:\n\t" ++ line) := by
  intro line c cs hd hn
  simp only [tokenize_line, scanTokens, hd, enum, enumFrom, List.length_cons]
  rw [scanTokensGo]
  simp [scanBody, to_u32, hn]

/-- Claim C4 witness: the amended theorem applied to the source's own
failing test line. -/
theorem c4_witness :
    tokenize_line "REM Invalid Line"
      = Except.error ("Line must start with a line number:\n\tREM Invalid Line") :=
  c4_nonempty_nondigit_errors "REM Invalid Line" 'R' "EM Invalid Line".data rfl rfl

/-- Claim C5: on a standalone `-` outside the line-number phase the scanner
pushes `Minus` exactly when the tokens so far are non-empty with a
value-producing last token (`Variable`, `Number`, or `BString`), and
`UMinus` otherwise; in `"10 LET A = 5 - 3"` the `-` classifies as `Minus`
and in `"10 LET A = -3"` as `UMinus`. -/
theorem c5_minus_disambiguation :
    (∀ (line : String) (pos : Nat) (rest : List (Nat × Char)) (ln : LineNumber)
        (toks : List TokenAndPos), to_u32 pos ≠ 0 →
       scanTokens line ((pos, '-') :: rest) ln toks
         = scanTokens line rest ln (toks ++ [⟨to_u32 pos, minus_token toks⟩]))
    ∧ (∀ toks : List TokenAndPos, minus_token toks = Token.Minus ↔
        ∃ lastTok, toks.getLast? = some lastTok ∧ lastTok.token.is_value = true)
    ∧ (∀ toks : List TokenAndPos, minus_token toks = Token.UMinus ↔
        ¬∃ lastTok, toks.getLast? = some lastTok ∧ lastTok.token.is_value = true)
    ∧ tokenize_line "10 LET A = 5 - 3"
        = Except.ok ⟨⟨10⟩, [⟨3, Token.Let⟩, ⟨7, Token.Variable "A"⟩, ⟨9, Token.Equals⟩,
            ⟨11, Token.Number 5⟩, ⟨13, Token.Minus⟩, ⟨15, Token.Number 3⟩]⟩
    ∧ tokenize_line "10 LET A = -3"
        = Except.ok ⟨⟨10⟩, [⟨3, Token.Let⟩, ⟨7, Token.Variable "A"⟩, ⟨9, Token.Equals⟩,
            ⟨11, Token.UMinus⟩, ⟨12, Token.Number 3⟩]⟩ := by
  refine ⟨scanTokens_minus, ?_, ?_, by rfl, by rfl⟩
  · intro toks
    rcases h : toks.getLast? with _ | lastTok
    · simp [minus_token, h]
    · by_cases hv : lastTok.token.is_value = true <;> simp [minus_token, h, hv]
  · intro toks
    rcases h : toks.getLast? with _ | lastTok
    · simp [minus_token, h]
    · by_cases hv : lastTok.token.is_value = true <;> simp [minus_token, h, hv]

/-- Claim C5 witness: the `-` step applied at a concrete state with no
preceding value token. -/
theorem c5_witness :
    scanTokens "" [(11, '-')] ⟨10⟩ [] = scanTokens "" [] ⟨10⟩ [⟨11, Token.UMinus⟩] :=
  c5_minus_disambiguation.1 "" 11 [] ⟨10⟩ [] (by decide)

/-- Claim C6: when a scanned run equals `REM` at offset `pos`, the tokenizer
pushes `Rem` at the truncated offset, skips exactly one following character,
pushes the whole remainder of the line as one `Comment` at the `u32` offset
`pos + 4`, and returns with no further tokens; on
`"5  REM THIS IS A COMMENT 123"` this yields `Rem` at 3 and the comment at
7. -/
theorem c6_rem_comment :
    (∀ (line : String) (pos : Nat) (rest : List (Nat × Char)) (ln : LineNumber)
        (toks : List TokenAndPos),
       to_u32 pos ≠ 0 →
       (rest.takeWhile runCont).map (·.2) = ['E', 'M'] →
       scanTokens line ((pos, 'R') :: rest) ln toks
         = Except.ok ⟨ln, toks ++ [⟨to_u32 pos, Token.Rem⟩,
             ⟨to_u32 (to_u32 pos + 4),
               Token.Comment (String.mk (((rest.dropWhile runCont).drop 1).map (·.2)))⟩]⟩)
    ∧ tokenize_line "5  REM THIS IS A COMMENT 123"
        = Except.ok ⟨⟨5⟩, [⟨3, Token.Rem⟩, ⟨7, Token.Comment "THIS IS A COMMENT 123"⟩]⟩ :=
  ⟨scanTokens_rem, by rfl⟩

/-- Claim C6 witness: the general `REM` property applied to a concrete
remainder of line. -/
theorem c6_witness :
    scanTokens "" [(3, 'R'), (4, 'E'), (5, 'M'), (6, ' '), (7, 'H'), (8, 'I')] ⟨5⟩ []
      = Except.ok ⟨⟨5⟩, [⟨3, Token.Rem⟩, ⟨7, Token.Comment "HI"⟩]⟩ :=
  c6_rem_comment.1 "" 3 [(4, 'E'), (5, 'M'), (6, ' '), (7, 'H'), (8, 'I')] ⟨5⟩ []
    (by decide) (by decide)

/-- Claim C7: a scanned run (truncated position nonzero, first character not
whitespace, `"`, `-`, `!`, `(`, or `)`) is classified in fixed priority
order — signed 32-bit integer, then fixed keyword/operator spelling, then
valid identifier — and the call fails with the `Unimplemented token` error
naming the run text and its offset exactly when the run matches none of the
three shapes. -/
theorem c7_run_classification :
    (∀ (line : String) (pos : Nat) (ch : Char) (rest : List (Nat × Char)) (ln : LineNumber)
        (toks : List TokenAndPos) (n : Int),
       to_u32 pos ≠ 0 →
       rust_is_whitespace ch = false → ch ≠ '"' → ch ≠ '-' → ch ≠ '!' → ch ≠ '(' → ch ≠ ')' →
       parse_i32 (ch :: (rest.takeWhile runCont).map (·.2)) = some n →
       scanTokens line ((pos, ch) :: rest) ln toks
         = scanTokens line (rest.dropWhile runCont) ln
             (toks ++ [⟨to_u32 pos, Token.Number n⟩]))
    ∧ (∀ (line : String) (pos : Nat) (ch : Char) (rest : List (Nat × Char)) (ln : LineNumber)
        (toks : List TokenAndPos) (t : Token),
       to_u32 pos ≠ 0 →
       rust_is_whitespace ch = false → ch ≠ '"' → ch ≠ '-' → ch ≠ '!' → ch ≠ '(' → ch ≠ ')' →
       parse_i32 (ch :: (rest.takeWhile runCont).map (·.2)) = none →
       Token.token_for_string (String.mk (ch :: (rest.takeWhile runCont).map (·.2))) = some t →
       t ≠ Token.Rem →
       scanTokens line ((pos, ch) :: rest) ln toks
         = scanTokens line (rest.dropWhile runCont) ln (toks ++ [⟨to_u32 pos, t⟩]))
    ∧ (∀ (line : String) (pos : Nat) (ch : Char) (rest : List (Nat × Char)) (ln : LineNumber)
        (toks : List TokenAndPos),
       to_u32 pos ≠ 0 →
       rust_is_whitespace ch = false → ch ≠ '"' → ch ≠ '-' → ch ≠ '!' → ch ≠ '(' → ch ≠ ')' →
       parse_i32 (ch :: (rest.takeWhile runCont).map (·.2)) = none →
       Token.token_for_string (String.mk (ch :: (rest.takeWhile runCont).map (·.2))) = none →
       is_valid_identifier (String.mk (ch :: (rest.takeWhile runCont).map (·.2))) = true →
       scanTokens line ((pos, ch) :: rest) ln toks
         = scanTokens line (rest.dropWhile runCont) ln
             (toks ++ [⟨to_u32 pos,
               Token.Variable (String.mk (ch :: (rest.takeWhile runCont).map (·.2)))⟩]))
    ∧ (∀ (line : String) (pos : Nat) (ch : Char) (rest : List (Nat × Char)) (ln : LineNumber)
        (toks : List TokenAndPos),
       to_u32 pos ≠ 0 →
       rust_is_whitespace ch = false → ch ≠ '"' → ch ≠ '-' → ch ≠ '!' → ch ≠ '(' → ch ≠ ')' →
       parse_i32 (ch :: (rest.takeWhile runCont).map (·.2)) = none →
       Token.token_for_string (String.mk (ch :: (rest.takeWhile runCont).map (·.2))) = none →
       is_valid_identifier (String.mk (ch :: (rest.takeWhile runCont).map (·.2))) = false →
       scanTokens line ((pos, ch) :: rest) ln toks
         = Except.error ("Unimplemented token at " ++ toString (to_u32 pos) ++ ":\t"
             ++ String.mk (ch :: (rest.takeWhile runCont).map (·.2)))) :=
  ⟨scanTokens_run_number, scanTokens_run_fixed, scanTokens_run_var, scanTokens_run_err⟩

/-- Claim C7 witness: the error case applied to the run `%A`, which is not
an integer, not a fixed spelling, and not a valid identifier. -/
theorem c7_witness :
    scanTokens "" [(9, '%'), (10, 'A')] ⟨0⟩ []
      = Except.error ("Unimplemented token at " ++ toString (9 : Nat) ++ ":\t"
          ++ String.mk ['%', 'A']) :=
  c7_run_classification.2.2.2 "" 9 '%' [(10, 'A')] ⟨0⟩ [] (by decide) (by decide) (by decide)
    (by decide) (by decide) (by decide) (by decide) (by decide) (by decide) (by decide)

/-- Claim C8: on a `"` at offset `pos` outside the line-number phase the
tokenizer pushes a `BString` at the truncated offset whose text is exactly
the characters up to but not including the next `"` (both quotes stripped
from the remaining stream); with no closing quote the literal silently takes
all remaining characters of the line; and `"10 PRINT \"FOO BAR BAZ\""`
yields `Print` at 3 and the literal at 9. -/
theorem c8_string_literal :
    (∀ (line : String) (pos : Nat) (rest : List (Nat × Char)) (ln : LineNumber)
        (toks : List TokenAndPos), to_u32 pos ≠ 0 →
       scanTokens line ((pos, '"') :: rest) ln toks
         = scanTokens line ((rest.dropWhile (fun pc => pc.2 != '"')).drop 1) ln
             (toks ++ [⟨to_u32 pos, Token.BString
                (String.mk ((rest.map (·.2)).takeWhile (fun c => c != '"')))⟩]))
    ∧ (∀ (line : String) (pos : Nat) (rest : List (Nat × Char)) (ln : LineNumber)
        (toks : List TokenAndPos), to_u32 pos ≠ 0 →
       ¬('"' ∈ rest.map (·.2)) →
       scanTokens line ((pos, '"') :: rest) ln toks
         = Except.ok ⟨ln, toks ++ [⟨to_u32 pos, Token.BString (String.mk (rest.map (·.2)))⟩]⟩)
    ∧ tokenize_line "10 PRINT \"FOO BAR BAZ\""
        = Except.ok ⟨⟨10⟩, [⟨3, Token.Print⟩, ⟨9, Token.BString "FOO BAR BAZ"⟩]⟩ := by
  refine ⟨?_, ?_, by rfl⟩
  · intro line pos rest ln toks h0
    rw [scanTokens_string line pos rest ln toks h0, List.takeWhile_map]
    rfl
  · intro line pos rest ln toks h0 hq
    have hall : ∀ pc ∈ rest, (pc.2 != '"') = true := by
      intro pc hpc
      simp only [bne_iff_ne, ne_eq, decide_eq_true_eq]
      intro h
      exact hq (List.mem_map.2 ⟨pc, hpc, h⟩)
    have h1 : rest.takeWhile (fun pc => pc.2 != '"') = rest :=
      List.takeWhile_eq_self_iff.2 hall
    have h2 : rest.dropWhile (fun pc => pc.2 != '"') = [] :=
      List.dropWhile_eq_nil_iff.2 hall
    rw [scanTokens_string line pos rest ln toks h0, h1, h2]
    rfl

/-- Claim C8 witness: the unterminated-string case applied to a concrete
remainder with no closing quote. -/
theorem c8_witness :
    scanTokens "" [(9, '"'), (10, 'A')] ⟨0⟩ []
      = Except.ok ⟨⟨0⟩, [⟨9, Token.BString "A"⟩]⟩ :=
  c8_string_literal.2.1 "" 9 [(10, 'A')] ⟨0⟩ [] (by decide) (by decide)

/-- Claim C9: `is_valid_identifier` accepts a string exactly when it is
non-empty, its first character is an ASCII letter, and every subsequent
character is an ASCII letter, an ASCII digit, or an underscore. -/
theorem c9_identifier_validation :
    ∀ s : String, is_valid_identifier s = true ↔
      (s.data ≠ [] ∧ (∀ c, s.data.head? = some c → c.isAlpha = true) ∧
       (∀ c ∈ s.data.tail, c.isAlpha = true ∨ c.isDigit = true ∨ c = '_')) := by
  intro s
  rcases hd : s.data with _ | ⟨c, cs⟩
  · simp [is_valid_identifier, hd]
  · simp only [is_valid_identifier, hd, ascii_letter_eq_isAlpha, ascii_digit_eq_isDigit,
      Bool.and_eq_true, List.all_eq_true, Bool.or_eq_true, beq_iff_eq,
      List.head?_cons, List.tail_cons, Option.some.injEq, ne_eq, List.cons_ne_nil,
      not_false_eq_true, true_and]
    constructor
    · rintro ⟨hc, hrest⟩
      exact ⟨fun d hdc => hdc ▸ hc, fun d hdm => by simpa [or_assoc] using hrest d hdm⟩
    · rintro ⟨hc, hrest⟩
      exact ⟨hc c rfl, fun d hdm => by simpa [or_assoc] using hrest d hdm⟩

/-- Claim C10 counterexample: the claim asserts strictly increasing offsets
for every successful call, but offsets are `pos as u32` truncations of the
character index.  On the 2^32 + 3 character line `wrap_line` the call
succeeds — the character `5` at index 2^32 has truncated position 0, so the
line-number phase re-runs there, reassigning the line number to 5, and the
final `B` lands at wrapped offset 2 — yet the offsets [3, 2] are not
strictly increasing. -/
theorem c10_wrapped_offsets_counterexample :
    tokenize_line wrap_line
        = Except.ok ⟨⟨5⟩, [⟨3, Token.Variable "A"⟩, ⟨2, Token.Variable "B"⟩]⟩
      ∧ ¬(List.map TokenAndPos.pos
            [(⟨3, Token.Variable "A"⟩ : TokenAndPos), ⟨2, Token.Variable "B"⟩]).Pairwise
          (· < ·) := by
  constructor
  · refine wrap_eval 4294967291 ?_ ?_
    · intro k hk
      unfold to_u32
      omega
    · unfold to_u32
      omega
  · decide

/-- Claim C10 (amended): for every input line of at most 2^32 − 4 characters
on which `tokenize_line` succeeds, the character offsets of the returned
tokens are strictly increasing from the first token to the last, including
the arithmetically computed `Comment` offset (the margin of 4 keeps the
`Comment` offset `pos + 4` from wrapping). -/
theorem c10_offsets_strictly_increasing :
    ∀ (line : String) (loc : LineOfCode),
      line.data.length + 4 ≤ 4294967296 →
      tokenize_line line = Except.ok loc →
      (List.map TokenAndPos.pos loc.tokens).Pairwise (· < ·) := by
  intro line loc hlen h
  refine scanTokensGo_pairwise line (enum line.data).length (enum line.data) ⟨0⟩ [] loc
    (enumFrom_fst_pairwise line.data 0) ?_ (by simp) (by simp) h
  intro pc hpc
  have := enumFrom_fst_lt line.data 0 pc hpc
  omega

/-- Claim C10 witness: the amended theorem applied to a successful line
containing the arithmetically placed comment token. -/
theorem c10_witness :
    (List.map TokenAndPos.pos
      [(⟨3, Token.Rem⟩ : TokenAndPos),
        ⟨7, Token.Comment "THIS IS A COMMENT 123"⟩]).Pairwise (· < ·) :=
  c10_offsets_strictly_increasing "5  REM THIS IS A COMMENT 123"
    ⟨⟨5⟩, [⟨3, Token.Rem⟩, ⟨7, Token.Comment "THIS IS A COMMENT 123"⟩]⟩ (by decide) (by rfl)

end RBasic
